import Mathlib

/-!
Shallow embedding of the dual-bucket blob routing layer of CalcpadS3
(`BlobStorageService` in the TypeScript source), together with the user
role model (`UserRole` in `models/User.ts`).

The MinIO client is modelled by oracles: each backend primitive is a pure
function supplied as a parameter, returning `Except Unit _` (a thrown
backend error is `.error ()`).  Where a claim is about state (delete,
upload), the backend object store is an explicit `Store` value and the
operation is a state transformer.  Impure inputs of the source
(`new Date().toISOString()`, `userContext.username`) are explicit
parameters.  JavaScript `Record<string, string>` objects are modelled as
association lists in insertion order, with `jsSet` mirroring property
assignment (overwrite keeps the original key position, new keys append),
which is exactly the iteration-order semantics of string-keyed JS objects.
-/

namespace CalcpadS3

/-- Value Viewer = 1 of the `UserRole` enum of `models/User.ts`. -/
def UserRole.Viewer : Nat := 1

/-- Value Contributor = 2 of the `UserRole` enum of `models/User.ts`. -/
def UserRole.Contributor : Nat := 2

/-- Value Admin = 3 of the `UserRole` enum of `models/User.ts`. -/
def UserRole.Admin : Nat := 3

/-- The caller identity triple (`UserContext` of `models`). -/
structure UserContext where
  userId : String
  username : String
  role : Nat
deriving DecidableEq, Repr

/-- Constructor field: the configured base name with "-working" appended. -/
def workingBucket (bucketName : String) : String := bucketName ++ "-working"

/-- Constructor field: the configured base name with "-stable" appended. -/
def stableBucket (bucketName : String) : String := bucketName ++ "-stable"

/-- Method `BlobStorageService.getBucketName`:
`userContext.role <= 2 ? this.workingBucket : this.stableBucket`. -/
def getBucketName (bucketName : String) (u : UserContext) : String :=
  if u.role ≤ 2 then workingBucket bucketName else stableBucket bucketName

/-- The bucket list built at the top of the read operations
(`downloadFileAsync`, `downloadFileVersionAsync`, `fileExistsAsync`,
`listFilesAsync`, `listFilesWithMetadataAsync`, `getFileMetadataAsync`,
`listFileVersionsAsync`):
`[getBucketName(u)]`, then for `role === 3` push
`role <= 2 ? stableBucket : workingBucket`. -/
def searchBuckets (bucketName : String) (u : UserContext) : List String :=
  [getBucketName bucketName u] ++
    (if u.role = 3 then
      [if u.role ≤ 2 then stableBucket bucketName else workingBucket bucketName]
     else [])

/-- The bucket list built in `getFileTagsAsync`: `[getBucketName(u)]`, then
for `role === 3` push `this.workingBucket` (unconditionally). -/
def tagsSearchBuckets (bucketName : String) (u : UserContext) : List String :=
  [getBucketName bucketName u] ++
    (if u.role = 3 then [workingBucket bucketName] else [])

/-! ## Tag codec -/

/-- The tag-map construction shared by `uploadFileAsync` and
`setFileTagsAsync`: `tags.forEach((tag, index) => { tagMap[`tag-${index}`] = tag })`.
Keys `tag-0`, `tag-1`, … are pairwise distinct, so the JS object holds the
pairs in insertion order; we model it as that association list. -/
def encodeTags (tags : List String) : List (String × String) :=
  tags.enum.map (fun p => ("tag-" ++ toString p.1, p.2))

/-- The tag decoding in `getFileTagsAsync`:
`Object.values(result).filter(v => typeof v === 'string' && v.length > 0).map(String)`.
All values of the modelled mapping are strings, so the `typeof` test is
always true; the decode keeps the values of positive length, in mapping
order. -/
def decodeTags (m : List (String × String)) : List String :=
  (m.map Prod.snd).filter (fun v => v.length > 0)

/-- JavaScript property read on a string-keyed object (also the model of
the optional-chained `stat.metaData?.['key']` reads): the value stored
under the first occurrence of the key, `none` when absent. -/
def jsGet (obj : List (String × String)) (k : String) : Option String :=
  match obj with
  | [] => none
  | (a, b) :: t => if a = k then some b else jsGet t k

/-! ## Caller-visible failures -/

/-- The two caller-visible failure kinds of the router: `notFound` is the
`throw new Error(... not found)` after a fallback loop is exhausted;
`backendFailure` is a backend error propagated by a non-fallback write. -/
inductive BlobError where
  | notFound
  | backendFailure
deriving DecidableEq, Repr

/-! ## Fallback loops over the bucket list -/

/-- The fallback loop of `downloadFileAsync` / `downloadFileVersionAsync`:
`for (bucket of buckets) { try { return await get(bucket) } catch { continue } }`
followed by `throw new Error('... not found')`. -/
def tryBucketsGet {α : Type} (get : String → Except Unit α) :
    List String → Except BlobError α
  | [] => .error .notFound
  | bucket :: rest =>
    match get bucket with
    | .ok v => .ok v
    | .error _ => tryBucketsGet get rest

/-- The fallback loop of `fileExistsAsync`: return `true` on the first
bucket whose `statObject` succeeds, `false` once all buckets failed. -/
def anyBucketOk (stat : String → Except Unit Unit) : List String → Bool
  | [] => false
  | bucket :: rest =>
    match stat bucket with
    | .ok _ => true
    | .error _ => anyBucketOk stat rest

/-- Method `BlobStorageService.downloadFileAsync` over a `getObject` oracle
(bucket, fileName ↦ content or backend error). -/
def downloadFileAsync {α : Type} (getObject : String → String → Except Unit α)
    (bucketName fileName : String) (u : UserContext) : Except BlobError α :=
  tryBucketsGet (fun bucket => getObject bucket fileName) (searchBuckets bucketName u)

/-- Method `BlobStorageService.downloadFileVersionAsync` over a versioned
`getObject` oracle (bucket, fileName, versionId ↦ content or error). -/
def downloadFileVersionAsync {α : Type}
    (getObjectV : String → String → String → Except Unit α)
    (bucketName fileName versionId : String) (u : UserContext) : Except BlobError α :=
  tryBucketsGet (fun bucket => getObjectV bucket fileName versionId)
    (searchBuckets bucketName u)

/-- Method `BlobStorageService.fileExistsAsync` over a `statObject` oracle. -/
def fileExistsAsync (statObject : String → String → Except Unit Unit)
    (bucketName fileName : String) (u : UserContext) : Bool :=
  anyBucketOk (fun bucket => statObject bucket fileName) (searchBuckets bucketName u)

/-! ## Explicit backend store (for the stateful claims) -/

/-- One stored object: its bytes, its object metadata and its tag map. -/
structure ObjData where
  content : String
  metaData : List (String × String)
  tags : List (String × String)
deriving DecidableEq, Repr

/-- The backend object store: bucket name and object name to the stored
object, `none` when absent. -/
abbrev Store : Type := String → String → Option ObjData

/-- The `getObject` oracle induced by a store: succeeds with the content
exactly when the object is present. -/
def storeGet (st : Store) (bucket fileName : String) : Except Unit String :=
  match st bucket fileName with
  | some o => .ok o.content
  | none => .error ()

/-- The `statObject` oracle induced by a store: succeeds exactly when the
object is present. -/
def storeStat (st : Store) (bucket fileName : String) : Except Unit Unit :=
  match st bucket fileName with
  | some _ => .ok ()
  | none => .error ()

/-- Removal of one object from the store (effect of a successful
`removeObject` call). -/
def removeFromStore (st : Store) (bucket fileName : String) : Store :=
  fun b f => if b = bucket ∧ f = fileName then none else st b f

/-- Insertion / overwrite of one object in the store (effect of a
successful `putObject` or `setObjectTagging` call). -/
def setInStore (st : Store) (bucket fileName : String) (o : ObjData) : Store :=
  fun b f => if b = bucket ∧ f = fileName then some o else st b f

/-- Method `BlobStorageService.deleteFileAsync`: iterate over
`[workingBucket, stableBucket]` (the userContext argument is never used to
pick buckets), attempt `removeObject` in each, set `deleted = true` on each
success, swallow each failure, return `deleted`.  `removeOk` tells whether
the backend `removeObject` call succeeds for a given bucket and name; on
success the object (if present) is removed from the store. -/
def deleteFileAsync (removeOk : String → String → Bool)
    (bucketName fileName : String) (u : UserContext) (st : Store) : Bool × Store :=
  [workingBucket bucketName, stableBucket bucketName].foldl
    (fun acc bucket =>
      if removeOk bucket fileName then (true, removeFromStore acc.2 bucket fileName)
      else acc)
    (false, st)

/-! ## Listing -/

/-- The inner loop of `listFilesAsync` for one bucket:
`if (obj.name && !files.includes(obj.name)) files.push(obj.name)`
(the truthiness test drops an empty name). -/
def pushNames (files : List String) (names : List String) : List String :=
  names.foldl (fun fs n => if n ≠ "" ∧ n ∉ fs then fs ++ [n] else fs) files

/-- The bucket loop of `listFilesAsync`: a bucket whose listing errors is
skipped; names are accumulated with de-duplication. -/
def listFilesLoop (listNames : String → Except Unit (List String)) :
    List String → List String → List String
  | files, [] => files
  | files, bucket :: rest =>
    match listNames bucket with
    | .ok names => listFilesLoop listNames (pushNames files names) rest
    | .error _ => listFilesLoop listNames files rest

/-- Method `BlobStorageService.listFilesAsync` over a `listObjects` oracle
that yields the object names of a bucket (or a backend error). -/
def listFilesAsync (listNames : String → Except Unit (List String))
    (bucketName : String) (u : UserContext) : List String :=
  listFilesLoop listNames [] (searchBuckets bucketName u)

/-- One entry yielded by the backend `listObjects` stream as read by
`listFilesWithMetadataAsync`: `obj.name`, `obj.size`, `obj.lastModified`
(its ISO string), `obj.etag`, the last three optional in the client's
typing and defaulted by the source. -/
structure ListEntry where
  name : String
  size : Option Nat
  lastModified : Option String
  etag : Option String
deriving DecidableEq, Repr

/-- The `BlobMetadata` model of `models` (the fields populated by
`listFilesWithMetadataAsync` / `getFileMetadataAsync`). -/
structure BlobMetadata where
  fileName : String
  size : Nat
  lastModified : String
  etag : String
  contentType : Option String
  isDir : Bool
  isLatest : Bool
  category : Option String
  created : Option String
  updated : Option String
  reviewed : Option String
  tested : Option String
  createdBy : Option String
deriving DecidableEq, Repr

/-- The `BlobMetadata` record literal built in `listFilesWithMetadataAsync`
from a listing entry and the object's stat metadata. -/
def toBlobMetadata (fileName : String) (size : Nat) (lastModified etag : String)
    (metaData : List (String × String)) : BlobMetadata :=
  { fileName := fileName
    size := size
    lastModified := lastModified
    etag := etag
    contentType := jsGet metaData "content-type"
    isDir := false
    isLatest := true
    category := jsGet metaData "category"
    created := jsGet metaData "created"
    updated := jsGet metaData "updated"
    reviewed := jsGet metaData "reviewed"
    tested := jsGet metaData "tested"
    createdBy := jsGet metaData "created-by" }

/-- One iteration of the inner loop of `listFilesWithMetadataAsync`: skip a
falsy (empty) name, probe `statObject`, on success push the metadata
record (`obj.size || 0`, `obj.lastModified?.toISOString() || now`,
`obj.etag || ''`), on a stat error skip the entry silently.  `statM` is
the `statObject` oracle restricted to the `metaData` field, the only part
of the stat result this method reads; `now` stands for the impure
`new Date().toISOString()` fallback. -/
def pushMetadataStep (statM : String → String → Except Unit (List (String × String)))
    (now bucket : String) (fs : List BlobMetadata) (e : ListEntry) : List BlobMetadata :=
  if e.name = "" then fs
  else
    match statM bucket e.name with
    | .ok m =>
      fs ++ [toBlobMetadata e.name (e.size.getD 0) (e.lastModified.getD now)
              (e.etag.getD "") m]
    | .error _ => fs

/-- The inner loop of `listFilesWithMetadataAsync` over one bucket's
listing. -/
def pushMetadata (statM : String → String → Except Unit (List (String × String)))
    (now bucket : String) (files : List BlobMetadata) (entries : List ListEntry) :
    List BlobMetadata :=
  entries.foldl (pushMetadataStep statM now bucket) files

/-- The bucket loop of `listFilesWithMetadataAsync`: a bucket whose listing
errors is skipped; entries are accumulated without de-duplication. -/
def listFilesWithMetadataLoop (listEntries : String → Except Unit (List ListEntry))
    (statM : String → String → Except Unit (List (String × String))) (now : String) :
    List BlobMetadata → List String → List BlobMetadata
  | files, [] => files
  | files, bucket :: rest =>
    match listEntries bucket with
    | .ok entries =>
      listFilesWithMetadataLoop listEntries statM now
        (pushMetadata statM now bucket files entries) rest
    | .error _ => listFilesWithMetadataLoop listEntries statM now files rest

/-- Method `BlobStorageService.listFilesWithMetadataAsync` over a
`listObjects` oracle and a `statObject` oracle. -/
def listFilesWithMetadataAsync (listEntries : String → Except Unit (List ListEntry))
    (statM : String → String → Except Unit (List (String × String))) (now : String)
    (bucketName : String) (u : UserContext) : List BlobMetadata :=
  listFilesWithMetadataLoop listEntries statM now [] (searchBuckets bucketName u)

/-! ## Version listing -/

/-- One entry yielded by the backend `listObjects` stream.  The source
reads `obj.name`, `obj.versionId`, `obj.lastModified`, `obj.size`,
`obj.etag`, `obj.isLatest`; `lastModified` is modelled as the epoch
milliseconds that `new Date(s).getTime()` would yield. -/
structure ObjEntry where
  name : String
  versionId : Option String
  lastModified : Nat
  size : Nat
  etag : String
  isLatest : Bool
deriving DecidableEq, Repr

/-- The `FileVersion` model of `models`. -/
structure FileVersion where
  versionId : String
  lastModified : Nat
  size : Nat
  etag : String
  isLatest : Bool
deriving DecidableEq, Repr

/-- The `versions.push({...})` record of `listFileVersionsAsync`:
`versionId: obj.versionId || 'null'`, defaults for the other fields. -/
def toFileVersion (e : ObjEntry) : FileVersion :=
  { versionId := e.versionId.getD "null"
    lastModified := e.lastModified
    size := e.size
    etag := e.etag
    isLatest := e.isLatest }

/-- The explicit sort of `listFileVersionsAsync`:
`versions.sort((a, b) => new Date(b.lastModified).getTime() - new Date(a.lastModified).getTime())`,
a stable sort placing larger (newer) timestamps first.  V8's `sort` is
stable, as is insertion sort. -/
def sortVersionsDesc (versions : List FileVersion) : List FileVersion :=
  List.insertionSort (fun a b => b.lastModified ≤ a.lastModified) versions

/-- The bucket loop of `listFileVersionsAsync`: list the bucket with the
file name as the backend listing prefix argument, keep entries whose name
equals the requested name, and if at least one survives return them
sorted; otherwise (or on a backend error) try the next bucket. -/
def listVersionsLoop (listObjs : String → String → Except Unit (List ObjEntry))
    (fileName : String) : List String → List FileVersion
  | [] => []
  | bucket :: rest =>
    match listObjs bucket fileName with
    | .ok entries =>
      let versions := (entries.filter (fun e => e.name == fileName)).map toFileVersion
      if versions.length > 0 then sortVersionsDesc versions
      else listVersionsLoop listObjs fileName rest
    | .error _ => listVersionsLoop listObjs fileName rest

/-- Method `BlobStorageService.listFileVersionsAsync` over a `listObjects`
oracle (bucket, listing-prefix argument ↦ entries or backend error). -/
def listFileVersionsAsync (listObjs : String → String → Except Unit (List ObjEntry))
    (bucketName fileName : String) (u : UserContext) : List FileVersion :=
  listVersionsLoop listObjs fileName (searchBuckets bucketName u)

/-! ## Tag operations -/

/-- The bucket loop of `getFileTagsAsync`: the first bucket whose
`getObjectTagging` call succeeds wins and its mapping is decoded (an empty
mapping decodes to `[]` and still stops the loop); a failing bucket is
skipped; when every bucket failed the result is `[]`. -/
def getTagsLoop (getTagging : String → String → Except Unit (List (String × String)))
    (fileName : String) : List String → List String
  | [] => []
  | bucket :: rest =>
    match getTagging bucket fileName with
    | .ok m => decodeTags m
    | .error _ => getTagsLoop getTagging fileName rest

/-- Method `BlobStorageService.getFileTagsAsync` over a `getObjectTagging`
oracle. -/
def getFileTagsAsync (getTagging : String → String → Except Unit (List (String × String)))
    (bucketName fileName : String) (u : UserContext) : List String :=
  getTagsLoop getTagging fileName (tagsSearchBuckets bucketName u)

/-- Method `BlobStorageService.setFileTagsAsync`: one `setObjectTagging`
call against `getBucketName(u)` with the encoded tag map; `true` on
success, `false` when the backend call fails. -/
def setFileTagsAsync (setTagging : String → String → List (String × String) → Except Unit Unit)
    (bucketName fileName : String) (tags : List String) (u : UserContext) : Bool :=
  match setTagging (getBucketName bucketName u) fileName (encodeTags tags) with
  | .ok _ => true
  | .error _ => false

/-- Method `BlobStorageService.deleteFileTagsAsync`: one `setObjectTagging`
call against `getBucketName(u)` with the empty map; `true` on success,
`false` when the backend call fails. -/
def deleteFileTagsAsync (setTagging : String → String → List (String × String) → Except Unit Unit)
    (bucketName fileName : String) (u : UserContext) : Bool :=
  match setTagging (getBucketName bucketName u) fileName [] with
  | .ok _ => true
  | .error _ => false

/-! ## Upload and object metadata -/

/-- JavaScript property assignment on a string-keyed object: overwriting an
existing key keeps its original position (the first and, keys being unique
in a JS object, only occurrence is replaced in place), a new key is
appended at the end. -/
def jsSet (obj : List (String × String)) (k v : String) : List (String × String) :=
  match obj with
  | [] => [(k, v)]
  | (a, b) :: t => if a = k then (k, v) :: t else (a, b) :: jsSet t k v

/-- JavaScript object spread `{...obj, ...extra}`: the properties of
`extra` are assigned in order on top of `obj`. -/
def jsMerge (obj extra : List (String × String)) : List (String × String) :=
  extra.foldl (fun o p => jsSet o p.1 p.2) obj

/-- The `contentType || 'application/octet-stream'` default (JS `||` also
replaces an empty string, which is falsy). -/
def contentTypeOrDefault (contentType : Option String) : String :=
  match contentType with
  | some ct => if ct == "" then "application/octet-stream" else ct
  | none => "application/octet-stream"

/-- The `metaData` object literal of `uploadFileAsync`:
three system fields, then the caller-supplied `metadata` spread on top. -/
def buildMetaData (contentType : Option String) (username createdAt : String)
    (metadata : List (String × String)) : List (String × String) :=
  jsMerge
    [("Content-Type", contentTypeOrDefault contentType),
     ("created-by", username),
     ("created-at", createdAt)]
    metadata

/-- Method `BlobStorageService.uploadFileAsync` as a state transformer.
`putOk` / `setTagOk` tell whether the backend `putObject` /
`setObjectTagging` calls succeed; a failing call throws, i.e. the result is
`.error .backendFailure` (no try/catch in the source) with the store as it
was at that point.  `createdAt` stands for the impure
`new Date().toISOString()`.  Tags are only set when `tags.length > 0`. -/
def uploadFileAsync (putOk setTagOk : String → String → Bool)
    (bucketName fileName content : String) (contentType : Option String)
    (tags : List String) (metadata : List (String × String))
    (createdAt : String) (u : UserContext) (st : Store) :
    Except BlobError String × Store :=
  let bucket := getBucketName bucketName u
  let metaData := buildMetaData contentType u.username createdAt metadata
  if putOk bucket fileName then
    let st1 := setInStore st bucket fileName ⟨content, metaData, []⟩
    if tags.length > 0 then
      if setTagOk bucket fileName then
        (.ok fileName, setInStore st1 bucket fileName ⟨content, metaData, encodeTags tags⟩)
      else (.error .backendFailure, st1)
    else (.ok fileName, st1)
  else (.error .backendFailure, st)

/-! # Helper lemmas -/

/-- The values of the encoded tag map are the original tags, in order. -/
theorem encodeTags_map_snd (tags : List String) :
    (encodeTags tags).map Prod.snd = tags := by
  simp only [encodeTags, List.map_map]
  have h : (Prod.snd ∘ fun p : Nat × String => ("tag-" ++ toString p.1, p.2)) = Prod.snd := rfl
  rw [h, List.enum_map_snd]

/-- A nonempty string has positive length. -/
theorem String.length_pos_of_ne_empty {t : String} (h : t ≠ "") : 0 < t.length := by
  rcases t with ⟨l⟩
  cases l with
  | nil => simp at h
  | cons a l => simp [String.length]

/-- Membership after the dedup-push fold of `listFilesAsync`: a name is in
the result iff it was already accumulated or it is a nonempty member of the
pushed names. -/
theorem mem_pushNames (files names : List String) (n : String) :
    n ∈ pushNames files names ↔ n ∈ files ∨ (n ∈ names ∧ n ≠ "") := by
  induction names generalizing files with
  | nil => simp [pushNames]
  | cons a t ih =>
    have hstep : pushNames files (a :: t)
        = pushNames (if a ≠ "" ∧ a ∉ files then files ++ [a] else files) t := by
      simp [pushNames]
    rw [hstep, ih]
    by_cases h1 : a = "" <;> by_cases h2 : a ∈ files <;>
      by_cases h3 : n = a <;> simp [h1, h2, h3] <;> tauto

/-- Membership in the bucket loop of `listFilesAsync`: a name is in the
result iff it was already accumulated or some searched bucket lists it
successfully (and the name is nonempty). -/
theorem mem_listFilesLoop (listNames : String → Except Unit (List String))
    (files buckets : List String) (n : String) :
    n ∈ listFilesLoop listNames files buckets ↔
      n ∈ files ∨ ∃ b ∈ buckets, ∃ ns, listNames b = .ok ns ∧ n ∈ ns ∧ n ≠ "" := by
  induction buckets generalizing files with
  | nil => simp [listFilesLoop]
  | cons b rest ih =>
    unfold listFilesLoop
    cases hb : listNames b with
    | ok ns =>
      rw [ih, mem_pushNames]
      constructor
      · rintro ((hf | hns) | hrest)
        · exact Or.inl hf
        · exact Or.inr ⟨b, List.mem_cons_self b rest, ns, hb, hns⟩
        · obtain ⟨c, hc, hcr⟩ := hrest
          exact Or.inr ⟨c, List.mem_cons_of_mem b hc, hcr⟩
      · rintro (hf | ⟨c, hc, ms, hms, hmem, hne2⟩)
        · exact Or.inl (Or.inl hf)
        · rcases List.mem_cons.mp hc with hcb | hcr
          · subst hcb
            rw [hb] at hms
            injection hms with h2
            subst h2
            exact Or.inl (Or.inr ⟨hmem, hne2⟩)
          · exact Or.inr ⟨c, hcr, ms, hms, hmem, hne2⟩
    | error e =>
      rw [ih]
      simp [hb]

/-- Every bucket in a search order is one of the two managed buckets. -/
theorem searchBuckets_mem (bucketName : String) (u : UserContext) {b : String}
    (hb : b ∈ searchBuckets bucketName u) :
    b = workingBucket bucketName ∨ b = stableBucket bucketName := by
  unfold searchBuckets getBucketName at hb
  by_cases h3 : u.role = 3 <;> by_cases h2 : u.role ≤ 2 <;>
    simp [h3, h2] at hb <;> tauto

/-- The existence loop returns false when the probe fails in every bucket. -/
theorem anyBucketOk_eq_false (stat : String → Except Unit Unit) (bs : List String)
    (h : ∀ b ∈ bs, stat b = .error ()) : anyBucketOk stat bs = false := by
  induction bs with
  | nil => rfl
  | cons b rest ih =>
    simp only [anyBucketOk, h b (List.mem_cons_self b rest)]
    exact ih (fun c hc => h c (List.mem_cons_of_mem b hc))

/-- The download loop fails with NotFound when every bucket failed. -/
theorem tryBucketsGet_eq_notFound {α : Type} (get : String → Except Unit α)
    (bs : List String) (h : ∀ b ∈ bs, get b = .error ()) :
    tryBucketsGet get bs = .error .notFound := by
  induction bs with
  | nil => rfl
  | cons b rest ih =>
    simp only [tryBucketsGet, h b (List.mem_cons_self b rest)]
    exact ih (fun c hc => h c (List.mem_cons_of_mem b hc))

/-- The version sort is a permutation of its input. -/
theorem sortVersionsDesc_perm (vs : List FileVersion) :
    (sortVersionsDesc vs).Perm vs :=
  List.perm_insertionSort _ vs

/-- The version sort orders last-modified times non-increasingly. -/
theorem sortVersionsDesc_pairwise (vs : List FileVersion) :
    (sortVersionsDesc vs).Pairwise (fun a b => b.lastModified ≤ a.lastModified) := by
  haveI : IsTotal FileVersion (fun a b => b.lastModified ≤ a.lastModified) :=
    ⟨fun a b => Or.symm (Nat.le_total a.lastModified b.lastModified)⟩
  haveI : IsTrans FileVersion (fun a b => b.lastModified ≤ a.lastModified) :=
    ⟨fun a b c hab hbc => Nat.le_trans hbc hab⟩
  exact List.sorted_insertionSort _ vs

/-- With pairwise-distinct last-modified times the version sort is
strictly descending. -/
theorem sortVersionsDesc_chain_of_nodup (vs : List FileVersion)
    (hnd : (vs.map FileVersion.lastModified).Nodup) :
    (sortVersionsDesc vs).Chain' (fun a b => b.lastModified < a.lastModified) := by
  have hperm : (sortVersionsDesc vs).Perm vs := sortVersionsDesc_perm vs
  have hnd2 : ((sortVersionsDesc vs).map FileVersion.lastModified).Nodup :=
    ((hperm.map FileVersion.lastModified).nodup_iff).mpr hnd
  have hpne : (sortVersionsDesc vs).Pairwise
      (fun a b => a.lastModified ≠ b.lastModified) :=
    List.pairwise_map.mp hnd2
  have hple := sortVersionsDesc_pairwise vs
  have hlt := (hple.and hpne).imp
    (fun {a b} h => Nat.lt_of_le_of_ne h.1 (Ne.symm h.2))
  exact hlt.chain'

/-- The tag loop returns the empty list when every bucket's tag read
fails. -/
theorem getTagsLoop_eq_nil
    (getTagging : String → String → Except Unit (List (String × String)))
    (fileName : String) (bs : List String)
    (h : ∀ b ∈ bs, getTagging b fileName = .error ()) :
    getTagsLoop getTagging fileName bs = [] := by
  induction bs with
  | nil => rfl
  | cons b rest ih =>
    simp only [getTagsLoop, h b (List.mem_cons_self b rest)]
    exact ih (fun c hc => h c (List.mem_cons_of_mem b hc))

/-- Reading back a JS property assignment: the assigned key yields the new
value, every other key is untouched. -/
theorem jsGet_jsSet (obj : List (String × String)) (k v q : String) :
    jsGet (jsSet obj k v) q = if q = k then some v else jsGet obj q := by
  induction obj with
  | nil =>
    by_cases hq : q = k <;> simp [jsSet, jsGet, hq, fun h => (Ne.symm h : k ≠ q)]
  | cons p t ih =>
    obtain ⟨a, b⟩ := p
    by_cases hak : a = k
    · subst hak
      by_cases hq : q = a <;> simp [jsSet, jsGet, hq, Ne.symm, ih]
    · by_cases haq : a = q <;> by_cases hq : q = k <;>
        simp_all [jsSet, jsGet]

/-- A spread leaves keys that the spread object does not contain alone. -/
theorem jsGet_jsMerge_not_mem (base extra : List (String × String)) (k : String)
    (h : k ∉ extra.map Prod.fst) :
    jsGet (jsMerge base extra) k = jsGet base k := by
  induction extra generalizing base with
  | nil => rfl
  | cons p rest ih =>
    simp only [List.map_cons, List.mem_cons] at h
    push_neg at h
    have hstep : jsMerge base (p :: rest) = jsMerge (jsSet base p.1 p.2) rest := by
      simp [jsMerge]
    rw [hstep, ih _ h.2, jsGet_jsSet, if_neg h.1]

/-- A spread overwrites each key the spread object contains with the
spread object's value for it (keys being unique in a JS object). -/
theorem jsGet_jsMerge_mem (base extra : List (String × String)) (k v : String)
    (hnd : (extra.map Prod.fst).Nodup) (hmem : (k, v) ∈ extra) :
    jsGet (jsMerge base extra) k = some v := by
  induction extra generalizing base with
  | nil => simp at hmem
  | cons p rest ih =>
    have hstep : jsMerge base (p :: rest) = jsMerge (jsSet base p.1 p.2) rest := by
      simp [jsMerge]
    simp only [List.map_cons, List.nodup_cons] at hnd
    rcases List.mem_cons.mp hmem with heq | hrest
    · have hk : p.1 = k := by rw [← heq]
      have hv : p.2 = v := by rw [← heq]
      rw [hstep, jsGet_jsMerge_not_mem _ _ _ (hk ▸ hnd.1), jsGet_jsSet, hk, hv, if_pos rfl]
    · rw [hstep]
      exact ih (jsSet base p.1 p.2) hnd.2 hrest

/-- A name that labels no pushed entry does not appear among the file
names after the inner metadata loop. -/
theorem pushMetadata_not_mem
    (statM : String → String → Except Unit (List (String × String)))
    (now bucket n : String) :
    ∀ (entries : List ListEntry) (files : List BlobMetadata),
      n ∉ files.map BlobMetadata.fileName →
      (∀ e ∈ entries, e.name ≠ n) →
      n ∉ (pushMetadata statM now bucket files entries).map BlobMetadata.fileName := by
  intro entries
  induction entries with
  | nil =>
    intro files hf _
    exact hf
  | cons e t ih =>
    intro files hf hent
    have hstep : pushMetadata statM now bucket files (e :: t)
        = pushMetadata statM now bucket (pushMetadataStep statM now bucket files e) t := rfl
    rw [hstep]
    refine ih _ ?_ (fun x hx => hent x (List.mem_cons_of_mem _ hx))
    unfold pushMetadataStep
    by_cases he : e.name = ""
    · simpa [he] using hf
    · cases hs : statM bucket e.name with
      | ok m =>
        simp only [he, if_false, List.map_append, List.mem_append]
        rintro (hin | hin)
        · exact hf hin
        · simp [toBlobMetadata] at hin
          exact hent e (List.mem_cons_self _ _) hin.symm
      | error err => simpa [he] using hf

/-- The metadata bucket loop adds no file name beyond the accumulated ones
and those successfully listed in a searched bucket. -/
theorem listFilesWithMetadataLoop_not_mem
    (listEntries : String → Except Unit (List ListEntry))
    (statM : String → String → Except Unit (List (String × String)))
    (now n : String) :
    ∀ (buckets : List String) (files : List BlobMetadata),
      n ∉ files.map BlobMetadata.fileName →
      (∀ b ∈ buckets, ∀ es, listEntries b = .ok es → ∀ e ∈ es, e.name ≠ n) →
      n ∉ (listFilesWithMetadataLoop listEntries statM now files buckets).map
        BlobMetadata.fileName := by
  intro buckets
  induction buckets with
  | nil =>
    intro files hf _
    exact hf
  | cons b rest ih =>
    intro files hf hall
    unfold listFilesWithMetadataLoop
    cases hle : listEntries b with
    | ok es =>
      refine ih _ ?_ (fun c hc => hall c (List.mem_cons_of_mem _ hc))
      exact pushMetadata_not_mem statM now b n es files hf
        (hall b (List.mem_cons_self _ _) es hle)
    | error e =>
      exact ih files hf (fun c hc => hall c (List.mem_cons_of_mem _ hc))

/-- The inner metadata loop depends on the stat oracle only at its own
bucket. -/
theorem pushMetadata_congr
    (statM statM2 : String → String → Except Unit (List (String × String)))
    (now bucket : String)
    (hag : ∀ f, statM bucket f = statM2 bucket f) :
    ∀ (entries : List ListEntry) (files : List BlobMetadata),
      pushMetadata statM now bucket files entries
        = pushMetadata statM2 now bucket files entries := by
  intro entries
  induction entries with
  | nil =>
    intro files
    rfl
  | cons e t ih =>
    intro files
    have h1 : pushMetadataStep statM now bucket files e
        = pushMetadataStep statM2 now bucket files e := by
      unfold pushMetadataStep
      rw [hag e.name]
    calc pushMetadata statM now bucket files (e :: t)
        = pushMetadata statM now bucket (pushMetadataStep statM now bucket files e) t := rfl
      _ = pushMetadata statM2 now bucket (pushMetadataStep statM now bucket files e) t := ih _
      _ = pushMetadata statM2 now bucket (pushMetadataStep statM2 now bucket files e) t := by
          rw [h1]

/-! # Claims -/

/-- Claim C1, counterexample: the round trip is not the identity on every
sequence of at most 50 tags that may contain empty strings — decoding the
encoding of `[""]` yields `[]`, because `getFileTagsAsync` filters the tag
values down to those of positive length. -/
theorem C1_tag_roundtrip_counterexample :
    ([""] : List String).length ≤ 50 ∧ decodeTags (encodeTags [""]) ≠ [""] := by
  decide

/-- Claim C1 (amended): for every ordered sequence of 0 to 50 tag strings
all of which are nonempty (duplicates allowed), decoding the tag-codec
encoding against an order-preserving backend mapping returns the original
sequence: identical length, order and elements.  (Sequences containing an
empty string do not round-trip: the decode drops them.) -/
theorem C1_tag_roundtrip (tags : List String) (hlen : tags.length ≤ 50)
    (hne : ∀ t ∈ tags, t ≠ "") : decodeTags (encodeTags tags) = tags := by
  unfold decodeTags
  rw [encodeTags_map_snd]
  apply List.filter_eq_self.mpr
  intro t ht
  simpa using String.length_pos_of_ne_empty (hne t ht)

/-- Witness for claim C1: the round trip evaluated on the concrete tag
sequence of the spec's scenario. -/
theorem C1_tag_roundtrip_witness :
    (["Draft", "Reviewed"] : List String).length ≤ 50 ∧
    (∀ t ∈ (["Draft", "Reviewed"] : List String), t ≠ "") ∧
    decodeTags (encodeTags ["Draft", "Reviewed"]) = ["Draft", "Reviewed"] :=
  ⟨by decide, by decide, C1_tag_roundtrip ["Draft", "Reviewed"] (by decide) (by decide)⟩

/-- Claim C2: when a blob name is present in both buckets with different
contents, an Admin's download returns the stable-bucket content and never
the working-bucket content, because the Admin search order is
`[stable, working]` and the first bucket that yields the object wins. -/
theorem C2_admin_download_stable_first (st : Store) (bucketName fileName : String)
    (u : UserContext) (o1 o2 : ObjData)
    (hrole : u.role = UserRole.Admin)
    (hs : st (stableBucket bucketName) fileName = some o1)
    (hw : st (workingBucket bucketName) fileName = some o2)
    (hne : o1.content ≠ o2.content) :
    downloadFileAsync (storeGet st) bucketName fileName u = .ok o1.content ∧
    downloadFileAsync (storeGet st) bucketName fileName u ≠ .ok o2.content := by
  have hb : searchBuckets bucketName u
      = [stableBucket bucketName, workingBucket bucketName] := by
    simp [searchBuckets, getBucketName, hrole, UserRole.Admin]
  refine ⟨?_, ?_⟩ <;>
  · unfold downloadFileAsync
    rw [hb]
    simp [tryBucketsGet, storeGet, hs, hne]

/-- Witness for claim C2: a concrete store holding content "S" under the
stable bucket and "W" under the working bucket for the same name; the
Admin download yields "S". -/
theorem C2_admin_download_stable_first_witness :
    downloadFileAsync
      (storeGet (fun b f =>
        if b = "calcpad-stable" ∧ f = "report.pdf" then some ⟨"S", [], []⟩
        else if b = "calcpad-working" ∧ f = "report.pdf" then some ⟨"W", [], []⟩
        else none))
      "calcpad" "report.pdf" ⟨"u1", "alice", 3⟩ = .ok "S" :=
  (C2_admin_download_stable_first _ "calcpad" "report.pdf" ⟨"u1", "alice", 3⟩
    ⟨"S", [], []⟩ ⟨"W", [], []⟩ rfl (by decide) (by decide) (by decide)).1

/-- Claim C3: a caller whose role is Viewer or Contributor reads only the
working bucket in every read operation — download, exists, list,
list-with-metadata, get-tags and version-list — so the results do not
depend on the contents of the stable bucket: for a name that exists only
in the stable bucket, download fails with NotFound, exists returns false,
list and list-with-metadata omit the name, get-tags and version-list
return the empty list, and each of the six operations is invariant under
any change of the oracles away from the working bucket — while the
identical download and existence check issued by an Admin succeed. -/
theorem C3_nonadmin_reads_working_only
    (st : Store) (listNames : String → Except Unit (List String))
    (bucketName fileName : String) (u uA : UserContext) (o : ObjData)
    (hrole : u.role = UserRole.Viewer ∨ u.role = UserRole.Contributor)
    (hroleA : uA.role = UserRole.Admin)
    (hw : st (workingBucket bucketName) fileName = none)
    (hs : st (stableBucket bucketName) fileName = some o)
    (hlw : ∀ ns, listNames (workingBucket bucketName) = .ok ns → fileName ∉ ns) :
    downloadFileAsync (storeGet st) bucketName fileName u = .error .notFound ∧
    fileExistsAsync (storeStat st) bucketName fileName u = false ∧
    fileName ∉ listFilesAsync listNames bucketName u ∧
    downloadFileAsync (storeGet st) bucketName fileName uA = .ok o.content ∧
    fileExistsAsync (storeStat st) bucketName fileName uA = true ∧
    (∀ st2 : Store,
      (∀ f, st2 (workingBucket bucketName) f = st (workingBucket bucketName) f) →
      downloadFileAsync (storeGet st2) bucketName fileName u
        = downloadFileAsync (storeGet st) bucketName fileName u) ∧
    (∀ getTagging : String → String → Except Unit (List (String × String)),
      getTagging (workingBucket bucketName) fileName = .error () →
      getFileTagsAsync getTagging bucketName fileName u = []) ∧
    (∀ getTagging getTagging2 : String → String → Except Unit (List (String × String)),
      (∀ f, getTagging (workingBucket bucketName) f
          = getTagging2 (workingBucket bucketName) f) →
      getFileTagsAsync getTagging bucketName fileName u
        = getFileTagsAsync getTagging2 bucketName fileName u) ∧
    (∀ listObjs : String → String → Except Unit (List ObjEntry),
      (∀ es, listObjs (workingBucket bucketName) fileName = .ok es →
        es.filter (fun e => e.name == fileName) = []) →
      listFileVersionsAsync listObjs bucketName fileName u = []) ∧
    (∀ listObjs listObjs2 : String → String → Except Unit (List ObjEntry),
      (∀ f, listObjs (workingBucket bucketName) f
          = listObjs2 (workingBucket bucketName) f) →
      listFileVersionsAsync listObjs bucketName fileName u
        = listFileVersionsAsync listObjs2 bucketName fileName u) ∧
    (∀ (listEntries : String → Except Unit (List ListEntry))
        (statM : String → String → Except Unit (List (String × String))) (now : String),
      (∀ es, listEntries (workingBucket bucketName) = .ok es →
        ∀ e ∈ es, e.name ≠ fileName) →
      fileName ∉ (listFilesWithMetadataAsync listEntries statM now bucketName u).map
        BlobMetadata.fileName) ∧
    (∀ (listEntries listEntries2 : String → Except Unit (List ListEntry))
        (statM statM2 : String → String → Except Unit (List (String × String)))
        (now : String),
      listEntries (workingBucket bucketName) = listEntries2 (workingBucket bucketName) →
      (∀ f, statM (workingBucket bucketName) f = statM2 (workingBucket bucketName) f) →
      listFilesWithMetadataAsync listEntries statM now bucketName u
        = listFilesWithMetadataAsync listEntries2 statM2 now bucketName u) := by
  have hb : searchBuckets bucketName u = [workingBucket bucketName] := by
    rcases hrole with h | h <;>
      simp [searchBuckets, getBucketName, h, UserRole.Viewer, UserRole.Contributor]
  have htb : tagsSearchBuckets bucketName u = [workingBucket bucketName] := by
    rcases hrole with h | h <;>
      simp [tagsSearchBuckets, getBucketName, h, UserRole.Viewer, UserRole.Contributor]
  have hbA : searchBuckets bucketName uA
      = [stableBucket bucketName, workingBucket bucketName] := by
    simp [searchBuckets, getBucketName, hroleA, UserRole.Admin]
  refine ⟨?_, ?_, ?_, ?_, ?_, ?_, ?_, ?_, ?_, ?_, ?_, ?_⟩
  · unfold downloadFileAsync
    rw [hb]
    simp [tryBucketsGet, storeGet, hw]
  · unfold fileExistsAsync
    rw [hb]
    simp [anyBucketOk, storeStat, hw]
  · unfold listFilesAsync
    rw [hb, mem_listFilesLoop]
    rintro (hmem | ⟨c, hc, ns, hns, hmem, -⟩)
    · simp at hmem
    · rcases List.mem_singleton.mp hc with rfl
      exact hlw ns hns hmem
  · unfold downloadFileAsync
    rw [hbA]
    simp [tryBucketsGet, storeGet, hs]
  · unfold fileExistsAsync
    rw [hbA]
    simp [anyBucketOk, storeStat, hs]
  · intro st2 hagree
    unfold downloadFileAsync
    rw [hb]
    simp [tryBucketsGet, storeGet, hagree fileName]
  · intro getTagging herr
    unfold getFileTagsAsync
    rw [htb]
    simp [getTagsLoop, herr]
  · intro getTagging getTagging2 hag
    unfold getFileTagsAsync
    rw [htb]
    cases h2 : getTagging2 (workingBucket bucketName) fileName with
    | ok m => simp [getTagsLoop, hag fileName, h2]
    | error e => simp [getTagsLoop, hag fileName, h2]
  · intro listObjs hmiss
    unfold listFileVersionsAsync
    rw [hb]
    cases hlo : listObjs (workingBucket bucketName) fileName with
    | ok es => simp [listVersionsLoop, hlo, hmiss es hlo]
    | error e => simp [listVersionsLoop, hlo]
  · intro listObjs listObjs2 hag
    unfold listFileVersionsAsync
    rw [hb]
    cases h2 : listObjs2 (workingBucket bucketName) fileName with
    | ok es => simp [listVersionsLoop, hag fileName, h2]
    | error e => simp [listVersionsLoop, hag fileName, h2]
  · intro listEntries statM now hmiss
    unfold listFilesWithMetadataAsync
    rw [hb]
    refine listFilesWithMetadataLoop_not_mem listEntries statM now fileName
      [workingBucket bucketName] [] (by simp) ?_
    intro c hc es hes e he
    rcases List.mem_singleton.mp hc with rfl
    exact hmiss es hes e he
  · intro listEntries listEntries2 statM statM2 now hle hsm
    unfold listFilesWithMetadataAsync
    rw [hb]
    cases h2 : listEntries2 (workingBucket bucketName) with
    | ok es =>
      simp only [listFilesWithMetadataLoop, hle, h2]
      rw [pushMetadata_congr statM statM2 now (workingBucket bucketName) hsm]
    | error e =>
      simp only [listFilesWithMetadataLoop, hle, h2]

/-- Witness for claim C3: a concrete store where "f.txt" lives only in the
stable bucket; the Viewer's download, existence check, listing,
metadata listing, tag read and version listing all miss it, the Admin's
download finds it. -/
theorem C3_nonadmin_reads_working_only_witness :
    downloadFileAsync
      (storeGet (fun b f =>
        if b = "calcpad-stable" ∧ f = "f.txt" then some ⟨"S", [], []⟩ else none))
      "calcpad" "f.txt" ⟨"u2", "bob", 1⟩ = .error .notFound ∧
    fileExistsAsync
      (storeStat (fun b f =>
        if b = "calcpad-stable" ∧ f = "f.txt" then some ⟨"S", [], []⟩ else none))
      "calcpad" "f.txt" ⟨"u2", "bob", 1⟩ = false ∧
    "f.txt" ∉ listFilesAsync
      (fun b => if b = "calcpad-stable" then .ok ["f.txt"] else .ok [])
      "calcpad" ⟨"u2", "bob", 1⟩ ∧
    downloadFileAsync
      (storeGet (fun b f =>
        if b = "calcpad-stable" ∧ f = "f.txt" then some ⟨"S", [], []⟩ else none))
      "calcpad" "f.txt" ⟨"u1", "alice", 3⟩ = .ok "S" ∧
    getFileTagsAsync (fun _ _ => .error ()) "calcpad" "f.txt" ⟨"u2", "bob", 1⟩ = [] ∧
    listFileVersionsAsync (fun _ _ => .error ()) "calcpad" "f.txt"
      ⟨"u2", "bob", 1⟩ = [] ∧
    "f.txt" ∉ (listFilesWithMetadataAsync
      (fun b => if b = "calcpad-stable" then .ok [⟨"f.txt", none, none, none⟩] else .ok [])
      (fun _ _ => .ok []) "t0" "calcpad" ⟨"u2", "bob", 1⟩).map BlobMetadata.fileName := by
  have h := C3_nonadmin_reads_working_only
    (fun b f => if b = "calcpad-stable" ∧ f = "f.txt" then some ⟨"S", [], []⟩ else none)
    (fun b => if b = "calcpad-stable" then .ok ["f.txt"] else .ok [])
    "calcpad" "f.txt" ⟨"u2", "bob", 1⟩ ⟨"u1", "alice", 3⟩ ⟨"S", [], []⟩
    (Or.inl rfl) rfl (by decide) (by decide)
    (by
      intro ns hns
      have hne : ("calcpad-working" : String) ≠ "calcpad-stable" := by decide
      simp only [workingBucket] at hns
      rw [if_neg (by decide)] at hns
      injection hns with h2
      subst h2
      decide)
  refine ⟨h.1, h.2.1, h.2.2.1, h.2.2.2.1, ?_, ?_, ?_⟩
  · exact h.2.2.2.2.2.2.1 (fun _ _ => .error ()) rfl
  · exact h.2.2.2.2.2.2.2.2.1 (fun _ _ => .error ()) (fun es hes => nomatch hes)
  · refine h.2.2.2.2.2.2.2.2.2.2.1
      (fun b => if b = "calcpad-stable" then .ok [⟨"f.txt", none, none, none⟩] else .ok [])
      (fun _ _ => .ok []) "t0" ?_
    intro es hes e he
    have h0 : (Except.ok [] : Except Unit (List ListEntry)) = Except.ok es := hes
    injection h0 with h1
    subst h1
    exact absurd he (List.not_mem_nil e)

/-- Claim C4: delete attempts removal from both managed buckets for every
caller role (its result does not depend on the caller at all), returns
success iff the backend removal call succeeded in at least one bucket, and
after both removal calls succeed an existence check from any role returns
false. -/
theorem C4_delete_both_buckets (removeOk : String → String → Bool)
    (bucketName fileName : String) (u : UserContext) (st : Store) :
    (deleteFileAsync removeOk bucketName fileName u st).1
      = (removeOk (workingBucket bucketName) fileName
          || removeOk (stableBucket bucketName) fileName) ∧
    (∀ u2 : UserContext, deleteFileAsync removeOk bucketName fileName u2 st
        = deleteFileAsync removeOk bucketName fileName u st) ∧
    (removeOk (workingBucket bucketName) fileName = true →
      removeOk (stableBucket bucketName) fileName = true →
      ∀ u2 : UserContext,
        fileExistsAsync (storeStat (deleteFileAsync removeOk bucketName fileName u st).2)
          bucketName fileName u2 = false) := by
  refine ⟨?_, fun u2 => rfl, ?_⟩
  · unfold deleteFileAsync
    cases hW : removeOk (workingBucket bucketName) fileName <;>
      cases hS : removeOk (stableBucket bucketName) fileName <;>
      simp [hW, hS]
  · intro hW hS u2
    have hres : (deleteFileAsync removeOk bucketName fileName u st).2
        = removeFromStore (removeFromStore st (workingBucket bucketName) fileName)
            (stableBucket bucketName) fileName := by
      unfold deleteFileAsync
      simp [hW, hS]
    rw [hres]
    unfold fileExistsAsync
    apply anyBucketOk_eq_false
    intro b hbmem
    have hval : removeFromStore (removeFromStore st (workingBucket bucketName) fileName)
        (stableBucket bucketName) fileName b fileName = none := by
      rcases searchBuckets_mem bucketName u2 hbmem with rfl | rfl <;>
      · unfold removeFromStore
        split <;> simp_all
    simp [storeStat, hval]

/-- Witness for claim C4: both removal calls succeed against a store that
holds "f.txt" in both buckets; delete reports success and an Admin's
subsequent existence check is false. -/
theorem C4_delete_both_buckets_witness :
    (deleteFileAsync (fun _ _ => true) "calcpad" "f.txt" ⟨"u2", "bob", 2⟩
      (fun _ f => if f = "f.txt" then some ⟨"X", [], []⟩ else none)).1 = true ∧
    fileExistsAsync
      (storeStat (deleteFileAsync (fun _ _ => true) "calcpad" "f.txt" ⟨"u2", "bob", 2⟩
        (fun _ f => if f = "f.txt" then some ⟨"X", [], []⟩ else none)).2)
      "calcpad" "f.txt" ⟨"u1", "alice", 3⟩ = false := by
  have h := C4_delete_both_buckets (fun _ _ => true) "calcpad" "f.txt" ⟨"u2", "bob", 2⟩
    (fun _ f => if f = "f.txt" then some ⟨"X", [], []⟩ else none)
  exact ⟨h.1.trans rfl, h.2.2 rfl rfl ⟨"u1", "alice", 3⟩⟩

/-- Claim C5: in the fallback read operations (download, download-version,
exists) a backend error for a bucket is swallowed and the next bucket in
the search order is tried — the Admin order being `[stable, working]`, an
error on the stable bucket followed by a hit on the working bucket still
succeeds — and only when every candidate bucket failed does download
surface NotFound, while exists returns false rather than an error. -/
theorem C5_fallback_swallows_errors {α : Type}
    (get : String → String → Except Unit α)
    (getV : String → String → String → Except Unit α)
    (stat : String → String → Except Unit Unit)
    (bucketName fileName versionId : String) (u : UserContext) (v w : α) :
    (u.role = UserRole.Admin →
      get (stableBucket bucketName) fileName = .error () →
      get (workingBucket bucketName) fileName = .ok v →
      downloadFileAsync get bucketName fileName u = .ok v) ∧
    ((∀ b ∈ searchBuckets bucketName u, get b fileName = .error ()) →
      downloadFileAsync get bucketName fileName u = .error .notFound) ∧
    (u.role = UserRole.Admin →
      getV (stableBucket bucketName) fileName versionId = .error () →
      getV (workingBucket bucketName) fileName versionId = .ok w →
      downloadFileVersionAsync getV bucketName fileName versionId u = .ok w) ∧
    ((∀ b ∈ searchBuckets bucketName u, getV b fileName versionId = .error ()) →
      downloadFileVersionAsync getV bucketName fileName versionId u = .error .notFound) ∧
    (u.role = UserRole.Admin →
      stat (stableBucket bucketName) fileName = .error () →
      stat (workingBucket bucketName) fileName = .ok () →
      fileExistsAsync stat bucketName fileName u = true) ∧
    ((∀ b ∈ searchBuckets bucketName u, stat b fileName = .error ()) →
      fileExistsAsync stat bucketName fileName u = false) := by
  refine ⟨?_, ?_, ?_, ?_, ?_, ?_⟩
  · intro hrole hs hw
    have hb : searchBuckets bucketName u
        = [stableBucket bucketName, workingBucket bucketName] := by
      simp [searchBuckets, getBucketName, hrole, UserRole.Admin]
    unfold downloadFileAsync
    rw [hb]
    simp [tryBucketsGet, hs, hw]
  · intro hall
    exact tryBucketsGet_eq_notFound _ _ (fun b hb => hall b hb)
  · intro hrole hs hw
    have hb : searchBuckets bucketName u
        = [stableBucket bucketName, workingBucket bucketName] := by
      simp [searchBuckets, getBucketName, hrole, UserRole.Admin]
    unfold downloadFileVersionAsync
    rw [hb]
    simp [tryBucketsGet, hs, hw]
  · intro hall
    exact tryBucketsGet_eq_notFound _ _ (fun b hb => hall b hb)
  · intro hrole hs hw
    have hb : searchBuckets bucketName u
        = [stableBucket bucketName, workingBucket bucketName] := by
      simp [searchBuckets, getBucketName, hrole, UserRole.Admin]
    unfold fileExistsAsync
    rw [hb]
    simp [anyBucketOk, hs, hw]
  · intro hall
    exact anyBucketOk_eq_false _ _ (fun b hb => hall b hb)

/-- Witness for claim C5: with the stable bucket erroring and the working
bucket holding "W", the Admin download returns "W"; with every bucket
erroring, download is NotFound and exists is false. -/
theorem C5_fallback_swallows_errors_witness :
    downloadFileAsync
      (fun b _ => if b = "calcpad-working" then .ok "W" else .error ())
      "calcpad" "f.txt" ⟨"u1", "alice", 3⟩ = .ok "W" ∧
    downloadFileAsync (fun _ _ => (.error () : Except Unit String))
      "calcpad" "f.txt" ⟨"u1", "alice", 3⟩ = .error .notFound ∧
    fileExistsAsync (fun _ _ => .error ())
      "calcpad" "f.txt" ⟨"u1", "alice", 3⟩ = false := by
  refine ⟨?_, ?_, ?_⟩
  · exact (C5_fallback_swallows_errors
      (fun b _ => if b = "calcpad-working" then .ok "W" else .error ())
      (fun _ _ _ => .error ()) (fun _ _ => .error ())
      "calcpad" "f.txt" "v0" ⟨"u1", "alice", 3⟩ "W" "W").1 rfl rfl rfl
  · exact (C5_fallback_swallows_errors (fun _ _ => (.error () : Except Unit String))
      (fun _ _ _ => .error ()) (fun _ _ => .error ())
      "calcpad" "f.txt" "v0" ⟨"u1", "alice", 3⟩ "W" "W").2.1 (fun b _ => rfl)
  · exact (C5_fallback_swallows_errors (fun _ _ => (.error () : Except Unit String))
      (fun _ _ _ => .error ()) (fun _ _ => .error ())
      "calcpad" "f.txt" "v0" ⟨"u1", "alice", 3⟩ "W" "W").2.2.2.2.2 (fun b _ => rfl)

/-- Claim C6, counterexample: the version list is not strictly descending
on every input — two versions sharing a last-modified time are returned in
insertion order, violating strict descent.  The source's comparator sort
is only non-strictly descending. -/
theorem C6_version_order_counterexample :
    listFileVersionsAsync
      (fun b _ => if b = "calcpad-working" then
          .ok [⟨"f.txt", some "v1", 100, 1, "e1", true⟩,
               ⟨"f.txt", some "v2", 100, 2, "e2", false⟩]
        else .error ())
      "calcpad" "f.txt" ⟨"u2", "bob", 1⟩
      = [⟨"v1", 100, 1, "e1", true⟩, ⟨"v2", 100, 2, "e2", false⟩] ∧
    ¬ List.Chain' (fun a b => b.lastModified < a.lastModified)
      (listFileVersionsAsync
        (fun b _ => if b = "calcpad-working" then
            .ok [⟨"f.txt", some "v1", 100, 1, "e1", true⟩,
                 ⟨"f.txt", some "v2", 100, 2, "e2", false⟩]
          else .error ())
        "calcpad" "f.txt" ⟨"u2", "bob", 1⟩) := by
  have h : listFileVersionsAsync
      (fun b _ => if b = "calcpad-working" then
          .ok [⟨"f.txt", some "v1", 100, 1, "e1", true⟩,
               ⟨"f.txt", some "v2", 100, 2, "e2", false⟩]
        else .error ())
      "calcpad" "f.txt" ⟨"u2", "bob", 1⟩
      = [⟨"v1", 100, 1, "e1", true⟩, ⟨"v2", 100, 2, "e2", false⟩] := by decide
  refine ⟨h, ?_⟩
  rw [h]
  simp [List.chain'_cons]

/-- Claim C6 (amended): version-list lists the backend with the requested
name as the listing-prefix argument, keeps only exact-name matches, stops
at the first bucket in the search order that yields at least one version
(a backend error or a listing with zero exact-name matches does not stop
the search, and version histories are never merged across buckets), and
returns that bucket's matches sorted by last-modified time in descending
(newest-first) order — strictly descending whenever the last-modified
times are pairwise distinct; versions sharing a timestamp keep their
relative listing order, so the sort is non-strict in general. -/
theorem C6_version_list (listObjs : String → String → Except Unit (List ObjEntry))
    (bucketName fileName : String) (u : UserContext) :
    listFileVersionsAsync listObjs bucketName fileName u
      = listVersionsLoop listObjs fileName (searchBuckets bucketName u) ∧
    listVersionsLoop listObjs fileName [] = [] ∧
    (∀ b rest, listObjs b fileName = .error () →
      listVersionsLoop listObjs fileName (b :: rest)
        = listVersionsLoop listObjs fileName rest) ∧
    (∀ b rest es, listObjs b fileName = .ok es →
      es.filter (fun e => e.name == fileName) = [] →
      listVersionsLoop listObjs fileName (b :: rest)
        = listVersionsLoop listObjs fileName rest) ∧
    (∀ b rest es, listObjs b fileName = .ok es →
      es.filter (fun e => e.name == fileName) ≠ [] →
      listVersionsLoop listObjs fileName (b :: rest)
        = sortVersionsDesc ((es.filter (fun e => e.name == fileName)).map toFileVersion) ∧
      (listVersionsLoop listObjs fileName (b :: rest)).Perm
        ((es.filter (fun e => e.name == fileName)).map toFileVersion)) ∧
    (∀ vs : List FileVersion,
      (sortVersionsDesc vs).Pairwise (fun a b => b.lastModified ≤ a.lastModified)) ∧
    (∀ vs : List FileVersion, (vs.map FileVersion.lastModified).Nodup →
      (sortVersionsDesc vs).Chain' (fun a b => b.lastModified < a.lastModified)) := by
  refine ⟨rfl, rfl, ?_, ?_, ?_, sortVersionsDesc_pairwise, sortVersionsDesc_chain_of_nodup⟩
  · intro b rest herr
    simp only [listVersionsLoop, herr]
  · intro b rest es hok hfilt
    simp only [listVersionsLoop, hok, hfilt, List.map_nil, List.length_nil,
      gt_iff_lt, Nat.lt_irrefl, if_false]
  · intro b rest es hok hfilt
    have hlen : 0 < ((es.filter (fun e => e.name == fileName)).map toFileVersion).length := by
      rw [List.length_map]
      exact List.length_pos.mpr hfilt
    constructor
    · simp only [listVersionsLoop, hok, if_pos hlen]
    · simp only [listVersionsLoop, hok, if_pos hlen]
      exact sortVersionsDesc_perm _

/-- Witness for claim C6: the stable bucket errors and is skipped, the
working bucket lists one exact match ("f.txt") and one mere prefix match
("f.txt.bak") which is dropped; with distinct timestamps the sort is
strictly descending. -/
theorem C6_version_list_witness :
    listVersionsLoop
      (fun b _ => if b = "calcpad-working" then
          .ok [⟨"f.txt", some "v1", 100, 1, "e1", false⟩,
               ⟨"f.txt.bak", some "v9", 300, 3, "e9", true⟩]
        else .error ())
      "f.txt" ["calcpad-stable", "calcpad-working"]
      = [⟨"v1", 100, 1, "e1", false⟩] ∧
    List.Chain' (fun a b => b.lastModified < a.lastModified)
      (sortVersionsDesc [⟨"v2", 200, 2, "e2", true⟩, ⟨"v1", 100, 1, "e1", false⟩]) := by
  have h := C6_version_list
    (fun b _ => if b = "calcpad-working" then
        .ok [⟨"f.txt", some "v1", 100, 1, "e1", false⟩,
             ⟨"f.txt.bak", some "v9", 300, 3, "e9", true⟩]
      else .error ())
    "calcpad" "f.txt" ⟨"u2", "bob", 1⟩
  constructor
  · have h3 := h.2.2.1 "calcpad-stable" ["calcpad-working"] rfl
    have h5 := (h.2.2.2.2.1 "calcpad-working" []
      [⟨"f.txt", some "v1", 100, 1, "e1", false⟩,
       ⟨"f.txt.bak", some "v9", 300, 3, "e9", true⟩] rfl (by decide)).1
    rw [h3, h5]
    decide
  · exact h.2.2.2.2.2.2
      [⟨"v2", 200, 2, "e2", true⟩, ⟨"v1", 100, 1, "e1", false⟩] (by decide)

/-- Claim C7: the non-fallback writes (set-tags, delete-tags, upload) make
a single backend attempt against the caller's primary bucket and surface
the first backend error directly to the caller as a failure, with no
second bucket and no retry: set-tags and delete-tags return false exactly
when their one `setObjectTagging` call fails (and true exactly when it
succeeds, so a backend rejection is always observable), and upload raises
the `putObject` / `setObjectTagging` error as a BackendFailure, a failure
kind distinct from NotFound. -/
theorem C7_write_errors_propagate
    (setTagging : String → String → List (String × String) → Except Unit Unit)
    (putOk setTagOk : String → String → Bool)
    (bucketName fileName content : String) (contentType : Option String)
    (tags : List String) (metadata : List (String × String))
    (createdAt : String) (u : UserContext) (st : Store) :
    (setFileTagsAsync setTagging bucketName fileName tags u = false ↔
      setTagging (getBucketName bucketName u) fileName (encodeTags tags) = .error ()) ∧
    (setFileTagsAsync setTagging bucketName fileName tags u = true ↔
      setTagging (getBucketName bucketName u) fileName (encodeTags tags) = .ok ()) ∧
    (deleteFileTagsAsync setTagging bucketName fileName u = false ↔
      setTagging (getBucketName bucketName u) fileName [] = .error ()) ∧
    (putOk (getBucketName bucketName u) fileName = false →
      (uploadFileAsync putOk setTagOk bucketName fileName content contentType tags
          metadata createdAt u st).1 = .error .backendFailure ∧
      (uploadFileAsync putOk setTagOk bucketName fileName content contentType tags
          metadata createdAt u st).2 = st) ∧
    (putOk (getBucketName bucketName u) fileName = true →
      tags.length > 0 →
      setTagOk (getBucketName bucketName u) fileName = false →
      (uploadFileAsync putOk setTagOk bucketName fileName content contentType tags
          metadata createdAt u st).1 = .error .backendFailure) ∧
    (putOk (getBucketName bucketName u) fileName = true →
      (tags = [] ∨ setTagOk (getBucketName bucketName u) fileName = true) →
      (uploadFileAsync putOk setTagOk bucketName fileName content contentType tags
          metadata createdAt u st).1 = .ok fileName) ∧
    (BlobError.backendFailure ≠ BlobError.notFound) := by
  refine ⟨?_, ?_, ?_, ?_, ?_, ?_, by decide⟩
  · cases h : setTagging (getBucketName bucketName u) fileName (encodeTags tags) with
    | ok v => cases v; simp [setFileTagsAsync, h]
    | error e => cases e; simp [setFileTagsAsync, h]
  · cases h : setTagging (getBucketName bucketName u) fileName (encodeTags tags) with
    | ok v => cases v; simp [setFileTagsAsync, h]
    | error e => cases e; simp [setFileTagsAsync, h]
  · cases h : setTagging (getBucketName bucketName u) fileName [] with
    | ok v => cases v; simp [deleteFileTagsAsync, h]
    | error e => cases e; simp [deleteFileTagsAsync, h]
  · intro hput
    unfold uploadFileAsync
    simp [hput]
  · intro hput htags hset
    unfold uploadFileAsync
    simp [hput, htags, hset]
  · intro hput htags
    unfold uploadFileAsync
    rcases htags with rfl | hset
    · simp [hput]
    · simp only [hput, hset, if_true]
      split <;> rfl

/-- Witness for claim C7: an always-failing `setObjectTagging` makes
set-tags return false, and a failing `putObject` makes upload fail with
BackendFailure. -/
theorem C7_write_errors_propagate_witness :
    setFileTagsAsync (fun _ _ _ => .error ()) "calcpad" "f.txt" ["Draft"]
      ⟨"u2", "bob", 2⟩ = false ∧
    (uploadFileAsync (fun _ _ => false) (fun _ _ => true) "calcpad" "f.txt" "data"
      none [] [] "t0" ⟨"u2", "bob", 2⟩ (fun _ _ => none)).1
      = .error .backendFailure := by
  constructor
  · exact (C7_write_errors_propagate (fun _ _ _ => .error ()) (fun _ _ => false)
      (fun _ _ => true) "calcpad" "f.txt" "data" none ["Draft"] [] "t0"
      ⟨"u2", "bob", 2⟩ (fun _ _ => none)).1.mpr rfl
  · exact ((C7_write_errors_propagate (fun _ _ _ => .error ()) (fun _ _ => false)
      (fun _ _ => true) "calcpad" "f.txt" "data" none [] [] "t0"
      ⟨"u2", "bob", 2⟩ (fun _ _ => none)).2.2.2.1 rfl).1

/-- Claim C8: the bucket used by every write operation (upload, set-tags,
delete-tags) is determined solely by the caller's role — the working
bucket for roles Viewer and Contributor (role value at most 2), the stable
bucket for Admin (role value 3) — and the bucket names are the configured
base name with the fixed suffixes "-working" and "-stable" appended.
The write operations consult the backend only at the role-resolved
bucket. -/
theorem C8_write_bucket_by_role
    (bucketName fileName : String) (tags : List String) (u : UserContext) :
    workingBucket bucketName = bucketName ++ "-working" ∧
    stableBucket bucketName = bucketName ++ "-stable" ∧
    (u.role ≤ 2 → getBucketName bucketName u = workingBucket bucketName) ∧
    (u.role = UserRole.Viewer ∨ u.role = UserRole.Contributor →
      getBucketName bucketName u = workingBucket bucketName) ∧
    (u.role = UserRole.Admin → getBucketName bucketName u = stableBucket bucketName) ∧
    (∀ f g : String → String → List (String × String) → Except Unit Unit,
      f (getBucketName bucketName u) fileName (encodeTags tags)
          = g (getBucketName bucketName u) fileName (encodeTags tags) →
      setFileTagsAsync f bucketName fileName tags u
        = setFileTagsAsync g bucketName fileName tags u) ∧
    (∀ f g : String → String → List (String × String) → Except Unit Unit,
      f (getBucketName bucketName u) fileName [] = g (getBucketName bucketName u) fileName [] →
      deleteFileTagsAsync f bucketName fileName u = deleteFileTagsAsync g bucketName fileName u) ∧
    (∀ (putOk putOk2 setTagOk setTagOk2 : String → String → Bool)
        (content : String) (contentType : Option String)
        (metadata : List (String × String)) (createdAt : String) (st : Store),
      putOk (getBucketName bucketName u) fileName
          = putOk2 (getBucketName bucketName u) fileName →
      setTagOk (getBucketName bucketName u) fileName
          = setTagOk2 (getBucketName bucketName u) fileName →
      uploadFileAsync putOk setTagOk bucketName fileName content contentType tags
          metadata createdAt u st
        = uploadFileAsync putOk2 setTagOk2 bucketName fileName content contentType tags
            metadata createdAt u st) := by
  refine ⟨rfl, rfl, ?_, ?_, ?_, ?_, ?_, ?_⟩
  · intro h
    simp [getBucketName, h]
  · intro h
    rcases h with h | h <;>
      simp [getBucketName, h, UserRole.Viewer, UserRole.Contributor]
  · intro h
    simp [getBucketName, h, UserRole.Admin]
  · intro f g h
    unfold setFileTagsAsync
    rw [h]
  · intro f g h
    unfold deleteFileTagsAsync
    rw [h]
  · intro putOk putOk2 setTagOk setTagOk2 content contentType metadata createdAt st hput hset
    unfold uploadFileAsync
    dsimp only
    rw [hput, hset]

/-- Witness for claim C8: the Contributor's tag write goes to the working
bucket and the Admin's to the stable bucket, with the literal suffixed
names. -/
theorem C8_write_bucket_by_role_witness :
    getBucketName "calcpad" ⟨"u2", "bob", 2⟩ = "calcpad-working" ∧
    getBucketName "calcpad" ⟨"u1", "alice", 3⟩ = "calcpad-stable" := by
  constructor
  · exact ((C8_write_bucket_by_role "calcpad" "f.txt" [] ⟨"u2", "bob", 2⟩).2.2.2.1
      (Or.inr rfl)).trans rfl
  · exact ((C8_write_bucket_by_role "calcpad" "f.txt" [] ⟨"u1", "alice", 3⟩).2.2.2.2.1
      rfl).trans rfl

/-- Claim C9: get-tags returns the decoded tag list of the first bucket in
its search order whose tag read succeeds — a successfully read empty tag
set also stops the search, since the conclusion holds for every mapping
`m` including `[]`, for every behaviour of the oracle on later buckets —
for an Admin a failing stable bucket falls through to the working bucket,
and when the tag read fails in every searched bucket the result is the
empty list rather than an error. -/
theorem C9_get_tags_first_readable
    (getTagging : String → String → Except Unit (List (String × String)))
    (bucketName fileName : String) (u : UserContext) (m : List (String × String)) :
    (getTagging (getBucketName bucketName u) fileName = .ok m →
      getFileTagsAsync getTagging bucketName fileName u = decodeTags m) ∧
    (u.role = UserRole.Admin →
      getTagging (stableBucket bucketName) fileName = .error () →
      getTagging (workingBucket bucketName) fileName = .ok m →
      getFileTagsAsync getTagging bucketName fileName u = decodeTags m) ∧
    ((∀ b ∈ tagsSearchBuckets bucketName u, getTagging b fileName = .error ()) →
      getFileTagsAsync getTagging bucketName fileName u = []) := by
  refine ⟨?_, ?_, ?_⟩
  · intro h
    unfold getFileTagsAsync tagsSearchBuckets
    simp only [List.singleton_append, getTagsLoop, h]
  · intro hrole hs hw
    have hb : tagsSearchBuckets bucketName u
        = [stableBucket bucketName, workingBucket bucketName] := by
      simp [tagsSearchBuckets, getBucketName, hrole, UserRole.Admin]
    unfold getFileTagsAsync
    rw [hb]
    simp [getTagsLoop, hs, hw]
  · intro hall
    exact getTagsLoop_eq_nil _ _ _ hall

/-- Witness for claim C9: an Admin whose stable-bucket tag read fails gets
the decoded working-bucket tags; an empty readable tag set on the primary
bucket yields the empty list; an everywhere-failing tag read yields the
empty list. -/
theorem C9_get_tags_first_readable_witness :
    getFileTagsAsync
      (fun b _ => if b = "calcpad-working" then
          .ok [("tag-0", "Draft"), ("tag-1", "Reviewed")] else .error ())
      "calcpad" "f.txt" ⟨"u1", "alice", 3⟩ = ["Draft", "Reviewed"] ∧
    getFileTagsAsync (fun _ _ => .ok []) "calcpad" "f.txt" ⟨"u2", "bob", 2⟩ = [] ∧
    getFileTagsAsync (fun _ _ => .error ()) "calcpad" "f.txt" ⟨"u2", "bob", 2⟩ = [] := by
  refine ⟨?_, ?_, ?_⟩
  · exact ((C9_get_tags_first_readable
      (fun b _ => if b = "calcpad-working" then
          .ok [("tag-0", "Draft"), ("tag-1", "Reviewed")] else .error ())
      "calcpad" "f.txt" ⟨"u1", "alice", 3⟩
      [("tag-0", "Draft"), ("tag-1", "Reviewed")]).2.1 rfl rfl rfl).trans (by decide)
  · exact ((C9_get_tags_first_readable (fun _ _ => .ok []) "calcpad" "f.txt"
      ⟨"u2", "bob", 2⟩ []).1 rfl).trans rfl
  · exact (C9_get_tags_first_readable (fun _ _ => .error ()) "calcpad" "f.txt"
      ⟨"u2", "bob", 2⟩ []).2.2 (fun b _ => rfl)

/-- Claim C10: the object-metadata literal of upload lists the three
system fields first and then spreads the caller metadata on top, so for
each of the keys "created-by", "created-at" and "Content-Type" a
caller-supplied entry overrides the system value (the authenticated
username, the upload timestamp, the supplied content type), and when the
key is absent from the caller metadata the system value is stored. -/
theorem C10_upload_metadata_override
    (putOk setTagOk : String → String → Bool)
    (bucketName fileName content : String) (contentType : Option String)
    (tags : List String) (metadata : List (String × String))
    (createdAt : String) (u : UserContext) (st : Store)
    (hput : putOk (getBucketName bucketName u) fileName = true)
    (hnd : (metadata.map Prod.fst).Nodup) :
    ∃ o : ObjData,
      (uploadFileAsync putOk setTagOk bucketName fileName content contentType tags
          metadata createdAt u st).2 (getBucketName bucketName u) fileName = some o ∧
      o.metaData = buildMetaData contentType u.username createdAt metadata ∧
      (∀ v, ("created-by", v) ∈ metadata → jsGet o.metaData "created-by" = some v) ∧
      ("created-by" ∉ metadata.map Prod.fst →
        jsGet o.metaData "created-by" = some u.username) ∧
      (∀ v, ("created-at", v) ∈ metadata → jsGet o.metaData "created-at" = some v) ∧
      ("created-at" ∉ metadata.map Prod.fst →
        jsGet o.metaData "created-at" = some createdAt) ∧
      (∀ v, ("Content-Type", v) ∈ metadata → jsGet o.metaData "Content-Type" = some v) ∧
      ("Content-Type" ∉ metadata.map Prod.fst →
        jsGet o.metaData "Content-Type" = some (contentTypeOrDefault contentType)) := by
  obtain ⟨t, ht⟩ : ∃ t, (uploadFileAsync putOk setTagOk bucketName fileName content
        contentType tags metadata createdAt u st).2 (getBucketName bucketName u) fileName
      = some ⟨content, buildMetaData contentType u.username createdAt metadata, t⟩ := by
    unfold uploadFileAsync
    dsimp only
    by_cases h1 : tags.length > 0
    · by_cases h2 : setTagOk (getBucketName bucketName u) fileName = true
      · exact ⟨encodeTags tags, by simp [hput, h1, h2, setInStore]⟩
      · exact ⟨[], by simp [hput, h1, h2, setInStore]⟩
    · exact ⟨[], by simp [hput, h1, setInStore]⟩
  refine ⟨_, ht, rfl, ?_, ?_, ?_, ?_, ?_, ?_⟩
  · intro v hv
    exact jsGet_jsMerge_mem _ _ _ _ hnd hv
  · intro hnot
    exact (jsGet_jsMerge_not_mem _ _ _ hnot).trans rfl
  · intro v hv
    exact jsGet_jsMerge_mem _ _ _ _ hnd hv
  · intro hnot
    exact (jsGet_jsMerge_not_mem _ _ _ hnot).trans rfl
  · intro v hv
    exact jsGet_jsMerge_mem _ _ _ _ hnd hv
  · intro hnot
    exact (jsGet_jsMerge_not_mem _ _ _ hnot).trans rfl

/-- Witness for claim C10: an upload whose caller metadata carries
"created-by": "mallory" stores "mallory" rather than the authenticated
username, while the absent "created-at" key keeps the system timestamp. -/
theorem C10_upload_metadata_override_witness :
    ∃ o : ObjData,
      (uploadFileAsync (fun _ _ => true) (fun _ _ => true) "calcpad" "f.txt" "data"
          none [] [("created-by", "mallory")] "t0" ⟨"u2", "bob", 2⟩
          (fun _ _ => none)).2 (getBucketName "calcpad" ⟨"u2", "bob", 2⟩) "f.txt"
        = some o ∧
      jsGet o.metaData "created-by" = some "mallory" ∧
      jsGet o.metaData "created-at" = some "t0" := by
  obtain ⟨o, ho, -, hcb, -, -, hca, -, -⟩ :=
    C10_upload_metadata_override (fun _ _ => true) (fun _ _ => true) "calcpad" "f.txt"
      "data" none [] [("created-by", "mallory")] "t0" ⟨"u2", "bob", 2⟩
      (fun _ _ => none) rfl (by decide)
  exact ⟨o, ho, hcb "mallory" (by decide), hca (by decide)⟩

end CalcpadS3
